import Mathlib

/-!
Shallow embedding of the recoord geohash codec (`src/formats/geohash.rs`
together with the `Coordinate` type of `src/lib.rs`).

Modelling conventions:
* Rust `f64` is modelled by exact rationals: every value produced by the
  codec is a small dyadic rational on which `f64` arithmetic is exact.
* Rust `usize` is modelled by `Nat`; the saturating float-to-`usize` cast
  (`as usize`) becomes `Int.toNat` of the floor/ceil, and `usize`
  subtraction, which panics on underflow under the debug profile, is
  modelled by `Option` (`none` = panic).
* Rust `char` is modelled by its Unicode code point as a `Nat`, and
  `String` by `List Nat`.
-/

deriving instance DecidableEq for Except

/-- Mirrors `enum CoordinateError` in `src/lib.rs`. -/
inductive CoordinateError where
  | MissingParser
  | InvalidValue
  | Malformed
  | ParseFloatErr
deriving DecidableEq, Repr

/-- Mirrors `struct Coordinate` in `src/lib.rs` (`lat`/`lng` floats). -/
structure Coordinate where
  lat : ℚ
  lng : ℚ
deriving DecidableEq, Repr

/-- Mirrors `Coordinate::new` in `src/lib.rs`: plain construction, no
range validation. -/
def Coordinate.new (lat lng : ℚ) : Coordinate :=
  { lat := lat, lng := lng }

/-- Mirrors `impl TryFrom<(f64, f64)> for Coordinate` in `src/lib.rs`:
accepts the pair exactly when the latitude lies in `[-90, 90]` and the
longitude in `[-180, 180]`, otherwise `InvalidValue`. -/
def coordinateTryFromPair (p : ℚ × ℚ) : Except CoordinateError Coordinate :=
  if -90 ≤ p.1 ∧ p.1 ≤ 90 ∧ -180 ≤ p.2 ∧ p.2 ≤ 180 then
    .ok { lat := p.1, lng := p.2 }
  else
    .error .InvalidValue

/-- Mirrors `struct Geohash` in `src/formats/geohash.rs`. -/
structure Geohash where
  bounding_top_left : Coordinate
  bounding_bottom_right : Coordinate
deriving DecidableEq, Repr

/-- Mirrors `impl Default for Geohash`: the full globe. -/
def geohashDefault : Geohash :=
  { bounding_top_left := { lat := 90, lng := -180 }
    bounding_bottom_right := { lat := -90, lng := 180 } }

/-- Mirrors `Geohash::center`. -/
def Geohash.center (g : Geohash) : Coordinate :=
  { lat := (g.bounding_top_left.lat + g.bounding_bottom_right.lat) / 2
    lng := (g.bounding_top_left.lng + g.bounding_bottom_right.lng) / 2 }

/-- Mirrors `Geohash::height` (bottom minus top, negative for a
well-formed region). -/
def Geohash.height (g : Geohash) : ℚ :=
  g.bounding_bottom_right.lat - g.bounding_top_left.lat

/-- Mirrors `Geohash::width`. -/
def Geohash.width (g : Geohash) : ℚ :=
  g.bounding_bottom_right.lng - g.bounding_top_left.lng

/-- The geohash alphabet string of the source,
`0123456789bcdefghjkmnpqrstuvwxyz`, as code points. -/
def alphabet : List Nat :=
  (String.toList "0123456789bcdefghjkmnpqrstuvwxyz").map Char.toNat

/-- Mirrors `impl TryFrom<char> for GeohashB32`: ASCII-lowercase the
character, truncate the code point to a byte (`as u8`), then bucket by
range, skipping `a`, `i`, `l`, `o`. -/
def charToB32 (c : Nat) : Except CoordinateError Nat :=
  let lower := if 65 ≤ c ∧ c ≤ 90 then c + 32 else c
  let b := lower % 256
  if 48 ≤ b ∧ b ≤ 57 then .ok (b - 48)
  else if b = 97 then .error .InvalidValue
  else if 98 ≤ b ∧ b ≤ 104 then .ok (b - 98 + 10)
  else if b = 105 then .error .InvalidValue
  else if b = 106 ∨ b = 107 then .ok (b - 106 + 17)
  else if b = 108 then .error .InvalidValue
  else if b = 109 ∨ b = 110 then .ok (b - 109 + 19)
  else if b = 111 then .error .InvalidValue
  else if 112 ≤ b ∧ b ≤ 122 then .ok (b - 112 + 21)
  else .error .InvalidValue

/-- The symbol of a character, defaulting to `0` off the alphabet; used
only to phrase statements about alphabet characters, where `charToB32`
succeeds. -/
def symOf (c : Nat) : Nat :=
  match charToB32 c with
  | .ok v => v
  | .error _ => 0

/-- Mirrors `impl TryFrom<GeohashB32> for char`: the range match of the
source, including its `21..=32` arm. -/
def b32ToChar (v : Nat) : Except CoordinateError Nat :=
  if v ≤ 9 then .ok (48 + v)
  else if v ≤ 16 then .ok (98 + v - 10)
  else if v ≤ 18 then .ok (106 + v - 17)
  else if v ≤ 20 then .ok (109 + v - 19)
  else if v ≤ 32 then .ok (112 + v - 21)
  else .error .InvalidValue

/-- The `.unwrap()` of `char::try_from(GeohashB32(byte))` inside
`hash_with_precision`; the default `0` is unreachable there because the
byte packed from a 5-bit chunk is below 32. -/
def b32ToCharUnwrap (v : Nat) : Nat :=
  match b32ToChar v with
  | .ok c => c
  | .error _ => 0

/-- One iteration of the bit loop inside `Geohash::from_str`: bit `i` of
symbol `v`, with per-character parity `fbl` (`first_bit_lat`). -/
def applyBitV (v fbl : Nat) (acc : Geohash) (i : Nat) : Geohash :=
  let bit := (v >>> i) &&& 1
  if (i + fbl) % 2 = 0 then
    let mid := (acc.bounding_top_left.lat + acc.bounding_bottom_right.lat) / 2
    if bit = 0 then
      { acc with bounding_top_left := { acc.bounding_top_left with lat := mid } }
    else
      { acc with bounding_bottom_right := { acc.bounding_bottom_right with lat := mid } }
  else
    let mid := (acc.bounding_top_left.lng + acc.bounding_bottom_right.lng) / 2
    if bit = 0 then
      { acc with bounding_bottom_right := { acc.bounding_bottom_right with lng := mid } }
    else
      { acc with bounding_top_left := { acc.bounding_top_left with lng := mid } }

/-- The per-character body of `Geohash::from_str`: the
`for i in (0..=4).rev()` loop. -/
def applyChar (g : Geohash) (v fbl : Nat) : Geohash :=
  [4, 3, 2, 1, 0].foldl (applyBitV v fbl) g

/-- The `try_fold` of `Geohash::from_str`: the characters zipped with the
cycled `[1, 0]` parities, stopping at the first invalid character. -/
def decodeAux : List Nat → Nat → Geohash → Except CoordinateError Geohash
  | [], _, acc => .ok acc
  | c :: cs, fbl, acc =>
    match charToB32 c with
    | .error e => .error e
    | .ok v => decodeAux cs (1 - fbl) (applyChar acc v fbl)

/-- Mirrors `impl FromStr for Geohash`. -/
def from_str (s : List Nat) : Except CoordinateError Geohash :=
  decodeAux s 1 geohashDefault

/-- The `w`-bit binary expansion, most significant bit first: mirrors
`(0..bits).rev().map(|i| (x >> i) & 1)`.  The source's `>>` here is a
`usize` shift, which would panic for shift amounts of 64 or more; every
execution that reaches this loop has already passed the `1usize << bits`
cell-count shift (see `usizeShl1`), so the amounts `i < bits < 64` are in
range and the plain `Nat` shift is exact. -/
def natBits (x w : Nat) : List Nat :=
  (List.range w).reverse.map (fun i => (x >>> i) &&& 1)

/-- Mirrors the `zip`/`chain(repeat(None))`/`flat_map`/`map_while`
interleaving of `hash_with_precision`: alternate, first list first,
stopping as soon as the second list runs dry. -/
def interleave : List Nat → List Nat → List Nat
  | [], _ => []
  | x :: _, [] => [x]
  | x :: xs, y :: ys => x :: y :: interleave xs ys

/-- Mirrors `all_bits.chunks(5)`. -/
def chunks5 : List Nat → List (List Nat)
  | [] => []
  | a :: b :: c :: d :: e :: rest => [a, b, c, d, e] :: chunks5 rest
  | l => [l]

/-- Mirrors the packing loop `byte |= value << (4 - i)` over an
enumerated 5-bit chunk. -/
def toByte (chunk : List Nat) : Nat :=
  chunk.enum.foldl (fun byte p => byte ||| (p.2 <<< (4 - p.1))) 0

/-- The float-to-`usize` cast after `.floor()`: saturates at zero for
negative values. -/
def ratFloorUsize (q : ℚ) : Nat :=
  (Int.floor q).toNat

/-- The float-to-`usize` cast after `.ceil()`. -/
def ratCeilUsize (q : ℚ) : Nat :=
  (Int.ceil q).toNat

/-- Debug-profile `usize` subtraction: panics (`none`) on underflow. -/
def usizeSub (a b : Nat) : Option Nat :=
  if b ≤ a then some (a - b) else none

/-- Debug-profile `1usize << k`: a shift by 64 or more is an arithmetic
overflow and panics (`none`); below that the value `2 ^ k` fits `usize`. -/
def usizeShl1 (k : Nat) : Option Nat :=
  if k < 64 then some (1 <<< k) else none

/-- Mirrors `Geohash::hash_with_precision`.  The outer `Option` carries
the panic of the `1usize << lat_bits` / `1usize << lng_bits` cell-count
shifts (debug profile), which the source executes after the guard but
before any bit is emitted; the inner `Except` is the source's `Result`. -/
def hash_with_precision (g : Geohash) (total_bits : Nat) :
    Option (Except CoordinateError (List Nat)) :=
  let lat_bits := total_bits / 2
  let lng_bits := total_bits / 2 + total_bits % 2
  let bits_fit_in_char := total_bits % 5 = 0
  let bits_correct_ratio :=
    if total_bits % 10 = 0 then lat_bits = lng_bits else lat_bits = lng_bits - 1
  if bits_fit_in_char ∧ bits_correct_ratio then
    (usizeShl1 lat_bits).bind fun cells_n_lat =>
      (usizeShl1 lng_bits).bind fun cells_n_lng =>
        let lat := ratFloorUsize ((90 + g.center.lat) / 180 * (cells_n_lat : ℚ))
        let lng := ratFloorUsize ((180 + g.center.lng) / 360 * (cells_n_lng : ℚ))
        let all_bits := interleave (natBits lng lng_bits) (natBits lat lat_bits)
        some (.ok ((chunks5 all_bits).map (fun chunk => b32ToCharUnwrap (toByte chunk))))
  else
    some (.error .Malformed)

/-- Mirrors `Geohash::hash_with_max_length`; the source unwraps the
result, so both an inner shift panic and an `Err` unwrap panic are
modelled as `none`. -/
def hash_with_max_length (g : Geohash) (length : Nat) : Option (List Nat) :=
  (hash_with_precision g (length * 5)).bind fun r => r.toOption

/-- Mirrors `Geohash::crosses_horizontal_chunks`. -/
def Geohash.crosses_horizontal_chunks (g : Geohash) : Bool :=
  ratFloorUsize (g.bounding_top_left.lng / g.width) =
    ratFloorUsize (g.bounding_bottom_right.lng / g.width)

/-- Mirrors `Geohash::crosses_vertical_chunks`. -/
def Geohash.crosses_vertical_chunks (g : Geohash) : Bool :=
  ratFloorUsize (g.bounding_top_left.lat / g.height) =
    ratFloorUsize (g.bounding_bottom_right.lat / g.height)

/-- Mirrors `Geohash::get_inner_hash`, with the panicking `usize`
subtractions and the final `.unwrap()` modelled in `Option`. -/
def get_inner_hash (g : Geohash) : Option (List Nat) := do
  let lat_bits ← usizeSub (ratCeilUsize (360 / g.height))
    (if g.crosses_vertical_chunks then 1 else 0)
  let lng_bits ← usizeSub (ratCeilUsize (360 / g.width))
    (if g.crosses_horizontal_chunks then 1 else 0)
  let min_bits := max lat_bits lng_bits
  let m ← usizeSub min_bits 1
  let needed_bits := (m / 5 + 1) * 5
  (hash_with_precision g needed_bits).bind fun r => r.toOption

/-- Mirrors `Geohash::get_outer_hash`, with the panicking `usize`
subtractions and the final `.unwrap()` modelled in `Option`. -/
def get_outer_hash (g : Geohash) : Option (List Nat) := do
  let lat_bits ← usizeSub (ratFloorUsize (360 / g.height))
    (if g.crosses_vertical_chunks then 1 else 0)
  let lng_bits ← usizeSub (ratFloorUsize (360 / g.width))
    (if g.crosses_horizontal_chunks then 1 else 0)
  let max_bits := min lat_bits lng_bits
  let m ← usizeSub ((max_bits + 1) / 5) 1
  let needed_bits := m * 5
  (hash_with_precision g needed_bits).bind fun r => r.toOption

/-!
Specification-level view of the decode loop: the running region is always
a grid cell, described by the number of latitude bits `L`, the number of
longitude bits `M`, and the cell indices `a` (latitude, from the south
pole) and `b` (longitude, from the antimeridian).
-/

/-- Latitude contribution of a symbol when the character has
`first_bit_lat = 1` (bit positions 3 and 1, most significant first). -/
def latPartO (v : Nat) : Nat :=
  2 * ((v >>> 3) &&& 1) + ((v >>> 1) &&& 1)

/-- Longitude contribution of a symbol when `first_bit_lat = 1`
(bit positions 4, 2, 0). -/
def lngPartO (v : Nat) : Nat :=
  4 * ((v >>> 4) &&& 1) + 2 * ((v >>> 2) &&& 1) + (v &&& 1)

/-- Latitude contribution of a symbol when `first_bit_lat = 0`
(bit positions 4, 2, 0). -/
def latPartE (v : Nat) : Nat :=
  4 * ((v >>> 4) &&& 1) + 2 * ((v >>> 2) &&& 1) + (v &&& 1)

/-- Longitude contribution of a symbol when `first_bit_lat = 0`
(bit positions 3 and 1). -/
def lngPartE (v : Nat) : Nat :=
  2 * ((v >>> 3) &&& 1) + ((v >>> 1) &&& 1)

/-- Number of latitude bits consumed by a symbol list starting at
parity `p`. -/
def latCount : List Nat → Nat → Nat
  | [], _ => 0
  | _ :: vs, p => (if p = 1 then 2 else 3) + latCount vs (1 - p)

/-- Number of longitude bits consumed by a symbol list starting at
parity `p`. -/
def lngCount : List Nat → Nat → Nat
  | [], _ => 0
  | _ :: vs, p => (if p = 1 then 3 else 2) + lngCount vs (1 - p)

/-- Latitude cell index described by a symbol list starting at parity
`p`, most significant character first. -/
def aVal : List Nat → Nat → Nat
  | [], _ => 0
  | v :: vs, p =>
    (if p = 1 then latPartO v else latPartE v) * 2 ^ latCount vs (1 - p) + aVal vs (1 - p)

/-- Longitude cell index described by a symbol list starting at parity
`p`. -/
def bVal : List Nat → Nat → Nat
  | [], _ => 0
  | v :: vs, p =>
    (if p = 1 then lngPartO v else lngPartE v) * 2 ^ lngCount vs (1 - p) + bVal vs (1 - p)

/-- The flat bit stream of a symbol list: five bits per symbol, most
significant first. -/
def bitsFlat : List Nat → List Nat
  | [] => []
  | v :: vs => natBits v 5 ++ bitsFlat vs

/-- The decode-loop invariant: the region is the grid cell with `L`
latitude bits, `M` longitude bits and cell indices `a` (south to north)
and `b` (west to east). -/
def CellInv (g : Geohash) (L M a b : Nat) : Prop :=
  g.bounding_top_left.lat = -90 + ((a : ℚ) + 1) * (180 / 2 ^ L) ∧
  g.bounding_bottom_right.lat = -90 + (a : ℚ) * (180 / 2 ^ L) ∧
  g.bounding_top_left.lng = -180 + (b : ℚ) * (360 / 2 ^ M) ∧
  g.bounding_bottom_right.lng = -180 + ((b : ℚ) + 1) * (360 / 2 ^ M) ∧
  a < 2 ^ L ∧ b < 2 ^ M

/-- The bounding-rectangle well-formedness of a region: ordered corners
within the lat/lng ranges. -/
def WellFormed (g : Geohash) : Prop :=
  g.bounding_bottom_right.lat ≤ g.bounding_top_left.lat ∧
  g.bounding_top_left.lng ≤ g.bounding_bottom_right.lng ∧
  -90 ≤ g.bounding_bottom_right.lat ∧ g.bounding_top_left.lat ≤ 90 ∧
  -180 ≤ g.bounding_top_left.lng ∧ g.bounding_bottom_right.lng ≤ 180

theorem bit_le_one (v i : Nat) : (v >>> i) &&& 1 ≤ 1 :=
  Nat.and_le_right

theorem CellInv_geohashDefault : CellInv geohashDefault 0 0 0 0 := by
  refine ⟨?_, ?_, ?_, ?_, ?_, ?_⟩ <;> norm_num [geohashDefault]

theorem applyBitV_lat (v fbl i : Nat) (g : Geohash) (L M a b : Nat)
    (hpar : (i + fbl) % 2 = 0) (h : CellInv g L M a b) :
    CellInv (applyBitV v fbl g i) (L + 1) M (2 * a + ((v >>> i) &&& 1)) b := by
  obtain ⟨h1, h2, h3, h4, h5, h6⟩ := h
  have hpow : ((2 : ℚ) ^ L) ≠ 0 := by positivity
  have hbit : (v >>> i) &&& 1 ≤ 1 := bit_le_one v i
  rcases Nat.le_one_iff_eq_zero_or_eq_one.mp hbit with hb | hb
  · have hg : applyBitV v fbl g i =
        { g with bounding_top_left := { g.bounding_top_left with lat :=
          (g.bounding_top_left.lat + g.bounding_bottom_right.lat) / 2 } } := by
      unfold applyBitV
      rw [hpar, hb]
      simp
    rw [hg, hb]
    refine ⟨?_, ?_, ?_, ?_, ?_, h6⟩
    · dsimp only
      rw [h1, h2]
      push_cast
      rw [pow_succ]
      field_simp
      ring
    · dsimp only
      rw [h2]
      push_cast
      rw [pow_succ]
      field_simp
      ring
    · exact h3
    · exact h4
    · rw [pow_succ]; omega
  · have hg : applyBitV v fbl g i =
        { g with bounding_bottom_right := { g.bounding_bottom_right with lat :=
          (g.bounding_top_left.lat + g.bounding_bottom_right.lat) / 2 } } := by
      unfold applyBitV
      rw [hpar, hb]
      simp
    rw [hg, hb]
    refine ⟨?_, ?_, ?_, ?_, ?_, h6⟩
    · dsimp only
      rw [h1]
      push_cast
      rw [pow_succ]
      field_simp
      ring
    · dsimp only
      rw [h1, h2]
      push_cast
      rw [pow_succ]
      field_simp
      ring
    · exact h3
    · exact h4
    · rw [pow_succ]; omega

theorem applyBitV_lng (v fbl i : Nat) (g : Geohash) (L M a b : Nat)
    (hpar : (i + fbl) % 2 = 1) (h : CellInv g L M a b) :
    CellInv (applyBitV v fbl g i) L (M + 1) a (2 * b + ((v >>> i) &&& 1)) := by
  obtain ⟨h1, h2, h3, h4, h5, h6⟩ := h
  have hpow : ((2 : ℚ) ^ M) ≠ 0 := by positivity
  have hbit : (v >>> i) &&& 1 ≤ 1 := bit_le_one v i
  rcases Nat.le_one_iff_eq_zero_or_eq_one.mp hbit with hb | hb
  · have hg : applyBitV v fbl g i =
        { g with bounding_bottom_right := { g.bounding_bottom_right with lng :=
          (g.bounding_top_left.lng + g.bounding_bottom_right.lng) / 2 } } := by
      unfold applyBitV
      rw [hpar, hb]
      simp
    rw [hg, hb]
    refine ⟨h1, h2, ?_, ?_, h5, ?_⟩
    · dsimp only
      rw [h3]
      push_cast
      rw [pow_succ]
      field_simp
      ring
    · dsimp only
      rw [h3, h4]
      push_cast
      rw [pow_succ]
      field_simp
      ring
    · rw [pow_succ]; omega
  · have hg : applyBitV v fbl g i =
        { g with bounding_top_left := { g.bounding_top_left with lng :=
          (g.bounding_top_left.lng + g.bounding_bottom_right.lng) / 2 } } := by
      unfold applyBitV
      rw [hpar, hb]
      simp
    rw [hg, hb]
    refine ⟨h1, h2, ?_, ?_, h5, ?_⟩
    · dsimp only
      rw [h3, h4]
      push_cast
      rw [pow_succ]
      field_simp
      ring
    · dsimp only
      rw [h4]
      push_cast
      rw [pow_succ]
      field_simp
      ring
    · rw [pow_succ]; omega

theorem applyChar_odd (g : Geohash) (v : Nat) (L M a b : Nat)
    (h : CellInv g L M a b) :
    CellInv (applyChar g v 1) (L + 2) (M + 3) (4 * a + latPartO v) (8 * b + lngPartO v) := by
  have e : applyChar g v 1 =
      applyBitV v 1 (applyBitV v 1 (applyBitV v 1 (applyBitV v 1 (applyBitV v 1 g 4) 3) 2) 1) 0 :=
    rfl
  have t4 := applyBitV_lng v 1 4 g L M a b rfl h
  have t3 := applyBitV_lat v 1 3 _ L (M + 1) a _ rfl t4
  have t2 := applyBitV_lng v 1 2 _ (L + 1) (M + 1) _ _ rfl t3
  have t1 := applyBitV_lat v 1 1 _ (L + 1) (M + 2) _ _ rfl t2
  have t0 := applyBitV_lng v 1 0 _ (L + 2) (M + 2) _ _ rfl t1
  have ha : 4 * a + latPartO v = 2 * (2 * a + ((v >>> 3) &&& 1)) + ((v >>> 1) &&& 1) := by
    unfold latPartO; ring
  have hb2 : 8 * b + lngPartO v =
      2 * (2 * (2 * b + ((v >>> 4) &&& 1)) + ((v >>> 2) &&& 1)) + ((v >>> 0) &&& 1) := by
    unfold lngPartO; rw [Nat.shiftRight_zero]; ring
  rw [e, ha, hb2]
  exact t0

theorem applyChar_even (g : Geohash) (v : Nat) (L M a b : Nat)
    (h : CellInv g L M a b) :
    CellInv (applyChar g v 0) (L + 3) (M + 2) (8 * a + latPartE v) (4 * b + lngPartE v) := by
  have e : applyChar g v 0 =
      applyBitV v 0 (applyBitV v 0 (applyBitV v 0 (applyBitV v 0 (applyBitV v 0 g 4) 3) 2) 1) 0 :=
    rfl
  have t4 := applyBitV_lat v 0 4 g L M a b rfl h
  have t3 := applyBitV_lng v 0 3 _ (L + 1) M _ _ rfl t4
  have t2 := applyBitV_lat v 0 2 _ (L + 1) (M + 1) _ _ rfl t3
  have t1 := applyBitV_lng v 0 1 _ (L + 2) (M + 1) _ _ rfl t2
  have t0 := applyBitV_lat v 0 0 _ (L + 2) (M + 2) _ _ rfl t1
  have ha : 8 * a + latPartE v =
      2 * (2 * (2 * a + ((v >>> 4) &&& 1)) + ((v >>> 2) &&& 1)) + ((v >>> 0) &&& 1) := by
    unfold latPartE; rw [Nat.shiftRight_zero]; ring
  have hb2 : 4 * b + lngPartE v = 2 * (2 * b + ((v >>> 3) &&& 1)) + ((v >>> 1) &&& 1) := by
    unfold lngPartE; ring
  rw [e, ha, hb2]
  exact t0

theorem charToB32_alphabet :
    ∀ c ∈ alphabet, charToB32 c = .ok (symOf c) ∧ symOf c < 32 := by decide

theorem decodeAux_inv (cs : List Nat) :
    ∀ (p : Nat) (g : Geohash) (L M a b : Nat), p = 0 ∨ p = 1 → CellInv g L M a b →
    (∀ c ∈ cs, c ∈ alphabet) →
    ∃ g', decodeAux cs p g = .ok g' ∧
      CellInv g' (L + latCount (cs.map symOf) p) (M + lngCount (cs.map symOf) p)
        (a * 2 ^ latCount (cs.map symOf) p + aVal (cs.map symOf) p)
        (b * 2 ^ lngCount (cs.map symOf) p + bVal (cs.map symOf) p) := by
  induction cs with
  | nil =>
    intro p g L M a b _ h _
    exact ⟨g, rfl, by simpa [latCount, lngCount, aVal, bVal] using h⟩
  | cons c cs ih =>
    intro p g L M a b hp h hv
    have hc := charToB32_alphabet c (hv c (by simp))
    have hstep : decodeAux (c :: cs) p g = decodeAux cs (1 - p) (applyChar g (symOf c) p) := by
      simp only [decodeAux, hc.1]
    rcases hp with hp | hp
    · subst hp
      have h1 := applyChar_even g (symOf c) L M a b h
      obtain ⟨g', hg', hinv⟩ :=
        ih 1 _ (L + 3) (M + 2) _ _ (Or.inr rfl) h1 (fun x hx => hv x (by simp [hx]))
      refine ⟨g', by rwa [hstep], ?_⟩
      have eLat : latCount ((c :: cs).map symOf) 0 = 3 + latCount (cs.map symOf) 1 := by
        simp [latCount]
      have eLng : lngCount ((c :: cs).map symOf) 0 = 2 + lngCount (cs.map symOf) 1 := by
        simp [lngCount]
      have eA : aVal ((c :: cs).map symOf) 0 =
          latPartE (symOf c) * 2 ^ latCount (cs.map symOf) 1 + aVal (cs.map symOf) 1 := by
        simp [aVal]
      have eB : bVal ((c :: cs).map symOf) 0 =
          lngPartE (symOf c) * 2 ^ lngCount (cs.map symOf) 1 + bVal (cs.map symOf) 1 := by
        simp [bVal]
      rw [eLat, eLng, eA, eB]
      have g1 : L + (3 + latCount (cs.map symOf) 1) = L + 3 + latCount (cs.map symOf) 1 := by
        omega
      have g2 : M + (2 + lngCount (cs.map symOf) 1) = M + 2 + lngCount (cs.map symOf) 1 := by
        omega
      have g3 : a * 2 ^ (3 + latCount (cs.map symOf) 1) +
          (latPartE (symOf c) * 2 ^ latCount (cs.map symOf) 1 + aVal (cs.map symOf) 1) =
          (8 * a + latPartE (symOf c)) * 2 ^ latCount (cs.map symOf) 1 + aVal (cs.map symOf) 1 := by
        rw [pow_add]
        ring
      have g4 : b * 2 ^ (2 + lngCount (cs.map symOf) 1) +
          (lngPartE (symOf c) * 2 ^ lngCount (cs.map symOf) 1 + bVal (cs.map symOf) 1) =
          (4 * b + lngPartE (symOf c)) * 2 ^ lngCount (cs.map symOf) 1 + bVal (cs.map symOf) 1 := by
        rw [pow_add]
        ring
      rw [g1, g2, g3, g4]
      exact hinv
    · subst hp
      have h1 := applyChar_odd g (symOf c) L M a b h
      obtain ⟨g', hg', hinv⟩ :=
        ih 0 _ (L + 2) (M + 3) _ _ (Or.inl rfl) h1 (fun x hx => hv x (by simp [hx]))
      refine ⟨g', by rwa [hstep], ?_⟩
      have eLat : latCount ((c :: cs).map symOf) 1 = 2 + latCount (cs.map symOf) 0 := by
        simp [latCount]
      have eLng : lngCount ((c :: cs).map symOf) 1 = 3 + lngCount (cs.map symOf) 0 := by
        simp [lngCount]
      have eA : aVal ((c :: cs).map symOf) 1 =
          latPartO (symOf c) * 2 ^ latCount (cs.map symOf) 0 + aVal (cs.map symOf) 0 := by
        simp [aVal]
      have eB : bVal ((c :: cs).map symOf) 1 =
          lngPartO (symOf c) * 2 ^ lngCount (cs.map symOf) 0 + bVal (cs.map symOf) 0 := by
        simp [bVal]
      rw [eLat, eLng, eA, eB]
      have g1 : L + (2 + latCount (cs.map symOf) 0) = L + 2 + latCount (cs.map symOf) 0 := by
        omega
      have g2 : M + (3 + lngCount (cs.map symOf) 0) = M + 3 + lngCount (cs.map symOf) 0 := by
        omega
      have g3 : a * 2 ^ (2 + latCount (cs.map symOf) 0) +
          (latPartO (symOf c) * 2 ^ latCount (cs.map symOf) 0 + aVal (cs.map symOf) 0) =
          (4 * a + latPartO (symOf c)) * 2 ^ latCount (cs.map symOf) 0 + aVal (cs.map symOf) 0 := by
        rw [pow_add]
        ring
      have g4 : b * 2 ^ (3 + lngCount (cs.map symOf) 0) +
          (lngPartO (symOf c) * 2 ^ lngCount (cs.map symOf) 0 + bVal (cs.map symOf) 0) =
          (8 * b + lngPartO (symOf c)) * 2 ^ lngCount (cs.map symOf) 0 + bVal (cs.map symOf) 0 := by
        rw [pow_add]
        ring
      rw [g1, g2, g3, g4]
      exact hinv

theorem counts_eq (vs : List Nat) :
    latCount vs 1 = 5 * vs.length / 2 ∧ lngCount vs 1 = (5 * vs.length + 1) / 2 ∧
    latCount vs 0 = (5 * vs.length + 1) / 2 ∧ lngCount vs 0 = 5 * vs.length / 2 := by
  induction vs with
  | nil => simp [latCount, lngCount]
  | cons v vs ih =>
    obtain ⟨i1, i2, i3, i4⟩ := ih
    refine ⟨?_, ?_, ?_, ?_⟩ <;> simp [latCount, lngCount, i1, i2, i3, i4] <;> omega

theorem latPartO_le (v : Nat) : latPartO v ≤ 3 := by
  have b3 := bit_le_one v 3
  have b1 := bit_le_one v 1
  unfold latPartO
  omega

theorem latPartE_le (v : Nat) : latPartE v ≤ 7 := by
  have b4 := bit_le_one v 4
  have b2 := bit_le_one v 2
  have b0 := bit_le_one v 0
  unfold latPartE
  rw [Nat.shiftRight_zero] at b0
  omega

theorem lngPartO_le (v : Nat) : lngPartO v ≤ 7 := by
  have b4 := bit_le_one v 4
  have b2 := bit_le_one v 2
  have b0 := bit_le_one v 0
  unfold lngPartO
  rw [Nat.shiftRight_zero] at b0
  omega

theorem lngPartE_le (v : Nat) : lngPartE v ≤ 3 := by
  have b3 := bit_le_one v 3
  have b1 := bit_le_one v 1
  unfold lngPartE
  omega

theorem vals_lt (vs : List Nat) :
    (aVal vs 1 < 2 ^ latCount vs 1 ∧ bVal vs 1 < 2 ^ lngCount vs 1) ∧
    (aVal vs 0 < 2 ^ latCount vs 0 ∧ bVal vs 0 < 2 ^ lngCount vs 0) := by
  induction vs with
  | nil => simp [aVal, bVal, latCount, lngCount]
  | cons v vs ih =>
    obtain ⟨⟨i1, i2⟩, i3, i4⟩ := ih
    have p1 := latPartO_le v
    have p2 := lngPartO_le v
    have p3 := latPartE_le v
    have p4 := lngPartE_le v
    refine ⟨⟨?_, ?_⟩, ?_, ?_⟩ <;>
      simp [aVal, bVal, latCount, lngCount, pow_add] <;>
      nlinarith [pow_pos (show 0 < 2 from by norm_num) (latCount vs 1),
        pow_pos (show 0 < 2 from by norm_num) (lngCount vs 1),
        pow_pos (show 0 < 2 from by norm_num) (latCount vs 0),
        pow_pos (show 0 < 2 from by norm_num) (lngCount vs 0)]

theorem natBits_succ (x w : Nat) :
    natBits x (w + 1) = ((x >>> w) &&& 1) :: natBits x w := by
  simp [natBits, List.range_succ]

theorem natBits_length (x w : Nat) : (natBits x w).length = w := by
  simp [natBits]

theorem shift_low (x y k i : Nat) (h : i < k) :
    ((x * 2 ^ k + y) >>> i) &&& 1 = (y >>> i) &&& 1 := by
  rw [Nat.shiftRight_eq_div_pow, Nat.shiftRight_eq_div_pow, Nat.and_one_is_mod,
    Nat.and_one_is_mod]
  obtain ⟨d, rfl⟩ : ∃ d, k = i + (d + 1) := ⟨k - i - 1, by omega⟩
  have h1 : x * 2 ^ (i + (d + 1)) + y = y + (x * 2 ^ (d + 1)) * 2 ^ i := by
    rw [pow_add]
    ring
  rw [h1, Nat.add_mul_div_right _ _ (pow_pos (by norm_num) i)]
  have h2 : y / 2 ^ i + x * 2 ^ (d + 1) = y / 2 ^ i + (x * 2 ^ d) * 2 := by
    rw [pow_succ]
    ring
  rw [h2, Nat.add_mul_mod_self_right]

theorem shift_high (x y k j : Nat) (h : y < 2 ^ k) :
    (x * 2 ^ k + y) >>> (k + j) = x >>> j := by
  rw [Nat.shiftRight_eq_div_pow, Nat.shiftRight_eq_div_pow, pow_add,
    ← Nat.div_div_eq_div_mul]
  congr 1
  rw [mul_comm x, Nat.mul_add_div (pow_pos (by norm_num) k), Nat.div_eq_of_lt h, add_zero]

theorem natBits_append (x y m k : Nat) (h : y < 2 ^ k) :
    natBits (x * 2 ^ k + y) (m + k) = natBits x m ++ natBits y k := by
  induction m with
  | zero =>
    rw [Nat.zero_add]
    have : natBits x 0 = [] := rfl
    rw [this, List.nil_append]
    unfold natBits
    apply List.map_congr_left
    intro i hi
    have hik : i < k := by
      rw [List.mem_reverse, List.mem_range] at hi
      exact hi
    exact shift_low x y k i hik
  | succ m ih =>
    have e : m + 1 + k = (m + k) + 1 := by omega
    rw [e, natBits_succ, natBits_succ, List.cons_append, ih]
    congr 2
    have e2 : m + k = k + m := by omega
    rw [e2]
    exact shift_high x y k m h

theorem natBits_five (x : Nat) :
    natBits x 5 = [(x >>> 4) &&& 1, (x >>> 3) &&& 1, (x >>> 2) &&& 1,
      (x >>> 1) &&& 1, x &&& 1] := by
  simp [natBits, List.range_succ, Nat.shiftRight_zero]

theorem natBits_three (x y z : Nat) (hx : x ≤ 1) (hy : y ≤ 1) (hz : z ≤ 1) :
    natBits (4 * x + 2 * y + z) 3 = [x, y, z] := by
  simp only [natBits, List.range_succ, List.range_zero, List.reverse_append,
    List.reverse_cons, List.reverse_nil, List.nil_append, List.cons_append,
    List.map_cons, List.map_nil, Nat.shiftRight_eq_div_pow, Nat.and_one_is_mod]
  norm_num
  omega

theorem natBits_two (x y : Nat) (hx : x ≤ 1) (hy : y ≤ 1) :
    natBits (2 * x + y) 2 = [x, y] := by
  simp only [natBits, List.range_succ, List.range_zero, List.reverse_append,
    List.reverse_cons, List.reverse_nil, List.nil_append, List.cons_append,
    List.map_cons, List.map_nil, Nat.shiftRight_eq_div_pow, Nat.and_one_is_mod]
  norm_num
  omega

theorem interleave_cons (x : Nat) (xs ys : List Nat) :
    interleave (x :: xs) ys = x :: interleave ys xs := by
  cases ys with
  | nil =>
    cases xs <;> rfl
  | cons y ys =>
    show x :: y :: interleave xs ys = x :: interleave (y :: ys) xs
    rw [interleave_cons y ys xs]
termination_by xs.length + ys.length

theorem lngPartO_bits (v : Nat) :
    natBits (lngPartO v) 3 = [(v >>> 4) &&& 1, (v >>> 2) &&& 1, v &&& 1] := by
  have b0 : v &&& 1 ≤ 1 := Nat.and_le_right
  exact natBits_three _ _ _ (bit_le_one v 4) (bit_le_one v 2) b0

theorem latPartO_bits (v : Nat) :
    natBits (latPartO v) 2 = [(v >>> 3) &&& 1, (v >>> 1) &&& 1] :=
  natBits_two _ _ (bit_le_one v 3) (bit_le_one v 1)

theorem latPartE_bits (v : Nat) :
    natBits (latPartE v) 3 = [(v >>> 4) &&& 1, (v >>> 2) &&& 1, v &&& 1] := by
  have b0 : v &&& 1 ≤ 1 := Nat.and_le_right
  exact natBits_three _ _ _ (bit_le_one v 4) (bit_le_one v 2) b0

theorem lngPartE_bits (v : Nat) :
    natBits (lngPartE v) 2 = [(v >>> 3) &&& 1, (v >>> 1) &&& 1] :=
  natBits_two _ _ (bit_le_one v 3) (bit_le_one v 1)

theorem stream_eq (vs : List Nat) :
    interleave (natBits (bVal vs 1) (lngCount vs 1)) (natBits (aVal vs 1) (latCount vs 1)) =
      bitsFlat vs ∧
    interleave (natBits (aVal vs 0) (latCount vs 0)) (natBits (bVal vs 0) (lngCount vs 0)) =
      bitsFlat vs := by
  induction vs with
  | nil => exact ⟨rfl, rfl⟩
  | cons v vs ih =>
    constructor
    · have e1 : bVal (v :: vs) 1 = lngPartO v * 2 ^ lngCount vs 0 + bVal vs 0 := by
        simp [bVal]
      have e2 : lngCount (v :: vs) 1 = 3 + lngCount vs 0 := by simp [lngCount]
      have e3 : aVal (v :: vs) 1 = latPartO v * 2 ^ latCount vs 0 + aVal vs 0 := by
        simp [aVal]
      have e4 : latCount (v :: vs) 1 = 2 + latCount vs 0 := by simp [latCount]
      have e5 : bitsFlat (v :: vs) = natBits v 5 ++ bitsFlat vs := by simp [bitsFlat]
      rw [e1, e2, e3, e4, e5,
        natBits_append _ _ 3 _ (vals_lt vs).2.2,
        natBits_append _ _ 2 _ (vals_lt vs).2.1,
        lngPartO_bits, latPartO_bits, natBits_five]
      simp only [List.cons_append, List.nil_append, interleave_cons]
      rw [ih.2]
    · have e1 : bVal (v :: vs) 0 = lngPartE v * 2 ^ lngCount vs 1 + bVal vs 1 := by
        simp [bVal]
      have e2 : lngCount (v :: vs) 0 = 2 + lngCount vs 1 := by simp [lngCount]
      have e3 : aVal (v :: vs) 0 = latPartE v * 2 ^ latCount vs 1 + aVal vs 1 := by
        simp [aVal]
      have e4 : latCount (v :: vs) 0 = 3 + latCount vs 1 := by simp [latCount]
      have e5 : bitsFlat (v :: vs) = natBits v 5 ++ bitsFlat vs := by simp [bitsFlat]
      rw [e1, e2, e3, e4, e5,
        natBits_append _ _ 3 _ (vals_lt vs).1.1,
        natBits_append _ _ 2 _ (vals_lt vs).1.2,
        latPartE_bits, lngPartE_bits, natBits_five]
      simp only [List.cons_append, List.nil_append, interleave_cons]
      rw [ih.1]

theorem chunks5_flat (vs : List Nat) :
    chunks5 (bitsFlat vs) = vs.map (fun v => natBits v 5) := by
  induction vs with
  | nil => rfl
  | cons v vs ih =>
    have e5 : bitsFlat (v :: vs) = natBits v 5 ++ bitsFlat vs := by simp [bitsFlat]
    rw [e5, natBits_five]
    simp only [List.cons_append, List.nil_append]
    rw [show chunks5 (((v >>> 4) &&& 1) :: ((v >>> 3) &&& 1) :: ((v >>> 2) &&& 1) ::
        ((v >>> 1) &&& 1) :: (v &&& 1) :: bitsFlat vs) =
        [(v >>> 4) &&& 1, (v >>> 3) &&& 1, (v >>> 2) &&& 1, (v >>> 1) &&& 1, v &&& 1] ::
        chunks5 (bitsFlat vs) from rfl]
    rw [ih, List.map_cons, natBits_five]

theorem toByte_natBits : ∀ v < 32, toByte (natBits v 5) = v := by decide

theorem b32Unwrap_alphabet : ∀ c ∈ alphabet, b32ToCharUnwrap (symOf c) = c := by decide

theorem center_lat_floor (g : Geohash) (L M a b : Nat) (h : CellInv g L M a b) :
    ratFloorUsize ((90 + g.center.lat) / 180 * ((2 ^ L : ℕ) : ℚ)) = a := by
  have hpow : ((2 : ℚ) ^ L) ≠ 0 := by positivity
  have hc : (90 + g.center.lat) / 180 * ((2 ^ L : ℕ) : ℚ) = (2 * (a : ℚ) + 1) / 2 := by
    simp only [Geohash.center]
    rw [h.1, h.2.1]
    push_cast
    field_simp
    ring
  rw [ratFloorUsize, hc]
  have hfl : Int.floor ((2 * (a : ℚ) + 1) / 2) = (a : ℤ) := by
    rw [Int.floor_eq_iff]
    push_cast
    constructor <;> linarith
  rw [hfl]
  exact Int.toNat_natCast a

theorem center_lng_floor (g : Geohash) (L M a b : Nat) (h : CellInv g L M a b) :
    ratFloorUsize ((180 + g.center.lng) / 360 * ((2 ^ M : ℕ) : ℚ)) = b := by
  have hpow : ((2 : ℚ) ^ M) ≠ 0 := by positivity
  have hc : (180 + g.center.lng) / 360 * ((2 ^ M : ℕ) : ℚ) = (2 * (b : ℚ) + 1) / 2 := by
    simp only [Geohash.center]
    rw [h.2.2.1, h.2.2.2.1]
    push_cast
    field_simp
    ring
  rw [ratFloorUsize, hc]
  have hfl : Int.floor ((2 * (b : ℚ) + 1) / 2) = (b : ℤ) := by
    rw [Int.floor_eq_iff]
    push_cast
    constructor <;> linarith
  rw [hfl]
  exact Int.toNat_natCast b

theorem usizeShl1_eq (k : Nat) (h : k < 64) : usizeShl1 k = some (2 ^ k) := by
  rw [usizeShl1, if_pos h, Nat.one_shiftLeft]

theorem hash_with_precision_ok_eq (g : Geohash) (t : Nat) (h : t % 5 = 0)
    (hb : t ≤ 125) :
    hash_with_precision g t = some (.ok ((chunks5 (interleave
      (natBits (ratFloorUsize ((180 + g.center.lng) / 360 * ((2 ^ (t / 2 + t % 2) : ℕ) : ℚ)))
        (t / 2 + t % 2))
      (natBits (ratFloorUsize ((90 + g.center.lat) / 180 * ((2 ^ (t / 2) : ℕ) : ℚ)))
        (t / 2)))).map (fun chunk => b32ToCharUnwrap (toByte chunk)))) := by
  have hcond : (t % 5 = 0) ∧
      (if t % 10 = 0 then t / 2 = t / 2 + t % 2 else t / 2 = t / 2 + t % 2 - 1) :=
    ⟨h, by split <;> omega⟩
  simp only [hash_with_precision]
  rw [if_pos hcond, usizeShl1_eq (t / 2) (by omega),
    usizeShl1_eq (t / 2 + t % 2) (by omega)]
  rfl

theorem hash_with_precision_err (g : Geohash) (t : Nat) (h : ¬ t % 5 = 0) :
    hash_with_precision g t = some (.error .Malformed) := by
  simp only [hash_with_precision]
  rw [if_neg]
  intro hcond
  exact h hcond.1

theorem hash_with_precision_shift_panic (g : Geohash) (t : Nat) (h : t % 5 = 0)
    (hb : 64 ≤ t / 2) :
    hash_with_precision g t = none := by
  have hcond : (t % 5 = 0) ∧
      (if t % 10 = 0 then t / 2 = t / 2 + t % 2 else t / 2 = t / 2 + t % 2 - 1) :=
    ⟨h, by split <;> omega⟩
  simp only [hash_with_precision]
  rw [if_pos hcond, show usizeShl1 (t / 2) = none from by
    rw [usizeShl1, if_neg (by omega : ¬ t / 2 < 64)]]
  rfl

theorem from_str_inv (cs : List Nat) (h : ∀ c ∈ cs, c ∈ alphabet) :
    ∃ g, from_str cs = .ok g ∧
      CellInv g (latCount (cs.map symOf) 1) (lngCount (cs.map symOf) 1)
        (aVal (cs.map symOf) 1) (bVal (cs.map symOf) 1) := by
  obtain ⟨g, hg, hinv⟩ := decodeAux_inv cs 1 geohashDefault 0 0 0 0 (Or.inr rfl)
    CellInv_geohashDefault h
  refine ⟨g, hg, ?_⟩
  simpa using hinv

theorem roundtrip_core (cs : List Nat) (h : ∀ c ∈ cs, c ∈ alphabet)
    (hlen25 : cs.length ≤ 25) :
    ∃ g, from_str cs = .ok g ∧
      hash_with_precision g (5 * cs.length) = some (.ok cs) := by
  obtain ⟨g, hg, hinv⟩ := from_str_inv cs h
  refine ⟨g, hg, ?_⟩
  have hlen : (cs.map symOf).length = cs.length := by simp
  have hco := counts_eq (cs.map symOf)
  have h5 : (5 * cs.length) % 5 = 0 := by omega
  rw [hash_with_precision_ok_eq g _ h5 (by omega)]
  have eL : (5 * cs.length) / 2 = latCount (cs.map symOf) 1 := by
    rw [hco.1, hlen]
  have eM : (5 * cs.length) / 2 + (5 * cs.length) % 2 = lngCount (cs.map symOf) 1 := by
    have h2 := hco.2.1
    rw [hlen] at h2
    omega
  rw [eM, eL, center_lat_floor g _ _ _ _ hinv, center_lng_floor g _ _ _ _ hinv,
    (stream_eq (cs.map symOf)).1, chunks5_flat (cs.map symOf)]
  congr 1
  rw [List.map_map, List.map_map]
  have hpt : ∀ c ∈ cs, (((fun chunk => b32ToCharUnwrap (toByte chunk)) ∘
      (fun v => natBits v 5)) ∘ symOf) c = id c := by
    intro c hc
    have h32 := (charToB32_alphabet c (h c hc)).2
    simp only [Function.comp_apply, id_eq]
    rw [toByte_natBits _ h32]
    exact b32Unwrap_alphabet c (h c hc)
  rw [List.map_congr_left hpt, List.map_id]

theorem interleave_length (xs : List Nat) :
    ∀ ys : List Nat, ys.length ≤ xs.length → xs.length ≤ ys.length + 1 →
    (interleave xs ys).length = xs.length + ys.length := by
  induction xs with
  | nil =>
    intro ys h1 _
    have : ys = [] := List.eq_nil_of_length_eq_zero (by
      simp only [List.length_nil] at h1
      omega)
    subst this
    rfl
  | cons x xs ih =>
    intro ys h1 h2
    cases ys with
    | nil =>
      have hx : xs = [] := List.eq_nil_of_length_eq_zero (by
        simp only [List.length_cons, List.length_nil] at h2
        omega)
      subst hx
      rfl
    | cons y ys =>
      have e : interleave (x :: xs) (y :: ys) = x :: y :: interleave xs ys := rfl
      rw [e]
      simp only [List.length_cons] at h1 h2 ⊢
      rw [ih ys (by omega) (by omega)]
      omega

theorem chunks5_length : ∀ (m : Nat) (l : List Nat), l.length = 5 * m →
    (chunks5 l).length = m := by
  intro m
  induction m with
  | zero =>
    intro l h
    have : l = [] := List.eq_nil_of_length_eq_zero (by omega)
    subst this
    rfl
  | succ m ih =>
    intro l h
    rcases l with _ | ⟨a, _ | ⟨b, _ | ⟨c, _ | ⟨d, _ | ⟨e, rest⟩⟩⟩⟩⟩ <;>
      simp only [List.length_cons, List.length_nil] at h <;> try omega
    have hr : rest.length = 5 * m := by omega
    have e : chunks5 (a :: b :: c :: d :: e :: rest) = [a, b, c, d, e] :: chunks5 rest := rfl
    rw [e, List.length_cons, ih rest hr]

theorem CellInv_wellFormed (g : Geohash) (L M a b : Nat) (h : CellInv g L M a b) :
    WellFormed g := by
  obtain ⟨h1, h2, h3, h4, h5, h6⟩ := h
  have hL : ((a : ℚ) + 1) ≤ (2 : ℚ) ^ L := by
    have : ((a + 1 : ℕ) : ℚ) ≤ ((2 ^ L : ℕ) : ℚ) := by
      exact_mod_cast Nat.succ_le_of_lt h5
    push_cast at this
    linarith
  have hM : ((b : ℚ) + 1) ≤ (2 : ℚ) ^ M := by
    have : ((b + 1 : ℕ) : ℚ) ≤ ((2 ^ M : ℕ) : ℚ) := by
      exact_mod_cast Nat.succ_le_of_lt h6
    push_cast at this
    linarith
  have hpL : (0 : ℚ) < 180 / 2 ^ L := by positivity
  have hpM : (0 : ℚ) < 360 / 2 ^ M := by positivity
  have keyL : ((a : ℚ) + 1) * (180 / 2 ^ L) ≤ 180 := by
    have hm := mul_le_mul_of_nonneg_right hL (le_of_lt hpL)
    have e : (2 : ℚ) ^ L * (180 / 2 ^ L) = 180 := by
      field_simp
    linarith
  have keyM : ((b : ℚ) + 1) * (360 / 2 ^ M) ≤ 360 := by
    have hm := mul_le_mul_of_nonneg_right hM (le_of_lt hpM)
    have e : (2 : ℚ) ^ M * (360 / 2 ^ M) = 360 := by
      field_simp
    linarith
  have haL : (0 : ℚ) ≤ (a : ℚ) * (180 / 2 ^ L) :=
    mul_nonneg (Nat.cast_nonneg a) (le_of_lt hpL)
  have hbM : (0 : ℚ) ≤ (b : ℚ) * (360 / 2 ^ M) :=
    mul_nonneg (Nat.cast_nonneg b) (le_of_lt hpM)
  have hstepL : (a : ℚ) * (180 / 2 ^ L) ≤ ((a : ℚ) + 1) * (180 / 2 ^ L) :=
    mul_le_mul_of_nonneg_right (by linarith) (le_of_lt hpL)
  have hstepM : (b : ℚ) * (360 / 2 ^ M) ≤ ((b : ℚ) + 1) * (360 / 2 ^ M) :=
    mul_le_mul_of_nonneg_right (by linarith) (le_of_lt hpM)
  refine ⟨?_, ?_, ?_, ?_, ?_, ?_⟩ <;> simp only [WellFormed, h1, h2, h3, h4] <;> linarith

/-- C2: the char-to-symbol and symbol-to-char conversions are mutually
inverse bijections on the 32-character alphabet, and the excluded
characters `a`, `i`, `l`, `o` fail with `InvalidValue`. -/
theorem C2_alphabet_bijection :
    (∀ c ∈ alphabet, charToB32 c = .ok (symOf c) ∧ b32ToChar (symOf c) = .ok c) ∧
    (∀ v : Nat, v < 32 → b32ToChar v = .ok (b32ToCharUnwrap v) ∧
      charToB32 (b32ToCharUnwrap v) = .ok v) ∧
    charToB32 97 = .error CoordinateError.InvalidValue ∧
    charToB32 105 = .error CoordinateError.InvalidValue ∧
    charToB32 108 = .error CoordinateError.InvalidValue ∧
    charToB32 111 = .error CoordinateError.InvalidValue := by
  refine ⟨by decide, by decide, by decide, by decide, by decide, by decide⟩

/-- Witness for C2 at the character `b` (code 98, symbol 10) and the
symbol `5` (character `5`, code 53). -/
theorem C2_alphabet_bijection_witness :
    (charToB32 98 = .ok (symOf 98) ∧ b32ToChar (symOf 98) = .ok 98) ∧
    (b32ToChar 5 = .ok (b32ToCharUnwrap 5) ∧ charToB32 (b32ToCharUnwrap 5) = .ok 5) :=
  ⟨C2_alphabet_bijection.1 98 (by decide), C2_alphabet_bijection.2.1 5 (by decide)⟩

/-- C3 counterexample: the symbol 32 does not fail; the source's
`21..=32` match arm maps it to the character with code 123 (an opening
brace), which is not even in the geohash alphabet. -/
theorem C3_symbol32_counterexample :
    b32ToChar 32 = .ok 123 ∧
    ¬ b32ToChar 32 = .error CoordinateError.InvalidValue := by
  refine ⟨by decide, by decide⟩

/-- C3 amended: the symbol-to-char conversion fails with `InvalidValue`
exactly for symbols of value at least 33; the symbol 32 is (incorrectly)
accepted by the source's `21..=32` range arm. -/
theorem C3_symbol_to_char_error_iff (v : Nat) :
    b32ToChar v = .error CoordinateError.InvalidValue ↔ 33 ≤ v := by
  unfold b32ToChar
  split_ifs <;> simp <;> omega

/-- C4 counterexample: `hash_with_precision(0)` does not fail: `0 % 5 = 0`
and the axis-ratio check trivially passes, so the source returns the
empty string. -/
theorem C4_zero_bits_counterexample :
    hash_with_precision geohashDefault 0 = some (.ok []) := by
  rw [hash_with_precision_ok_eq geohashDefault 0 rfl (by omega)]
  rfl

/-- C4 amended: `hash_with_precision` fails with `Malformed` exactly when
`total_bits` is not a multiple of 5 (zero included as a success); for
multiples of 5 the axis split computed by the source is always balanced,
so the ratio check never fails on its own. -/
theorem C4_malformed_iff (g : Geohash) (t : Nat) :
    hash_with_precision g t = some (.error CoordinateError.Malformed) ↔ ¬ t % 5 = 0 := by
  constructor
  · intro h h5
    by_cases hb : t ≤ 125
    · rw [hash_with_precision_ok_eq g t h5 hb] at h
      exact absurd h (by simp)
    · rw [hash_with_precision_shift_panic g t h5 (by omega)] at h
      exact absurd h (by simp)
  · exact hash_with_precision_err g t

/-- C7: decoding the empty string succeeds and yields exactly the
full-globe default region. -/
theorem C7_empty_string :
    from_str [] = .ok geohashDefault ∧
    geohashDefault.bounding_top_left = { lat := 90, lng := -180 } ∧
    geohashDefault.bounding_bottom_right = { lat := -90, lng := 180 } :=
  ⟨rfl, rfl, rfl⟩

/-- C8 counterexample: `Coordinate::new(100., 20.)` succeeds and returns
a coordinate with latitude 100, outside `[-90, 90]`, while the claim
demands that every public construction fail with `InvalidValue` there;
only the tuple `TryFrom` implementation validates. -/
theorem C8_new_no_validation_counterexample :
    Coordinate.new 100 20 = { lat := 100, lng := 20 } ∧
    ¬ ((100 : ℚ) ≤ 90) ∧
    coordinateTryFromPair (100, 20) = .error CoordinateError.InvalidValue := by
  refine ⟨rfl, by norm_num, ?_⟩
  rw [coordinateTryFromPair, if_neg]
  norm_num

/-- C8 amended: the tuple `TryFrom` implementation succeeds exactly when
the latitude lies in `[-90, 90]` and the longitude in `[-180, 180]` and
fails with `InvalidValue` otherwise, while `Coordinate::new` performs no
validation at all. -/
theorem C8_tryfrom_validates (lat lng : ℚ) :
    (coordinateTryFromPair (lat, lng) = .ok { lat := lat, lng := lng } ↔
      -90 ≤ lat ∧ lat ≤ 90 ∧ -180 ≤ lng ∧ lng ≤ 180) ∧
    (¬ (-90 ≤ lat ∧ lat ≤ 90 ∧ -180 ≤ lng ∧ lng ≤ 180) →
      coordinateTryFromPair (lat, lng) = .error CoordinateError.InvalidValue) ∧
    Coordinate.new lat lng = { lat := lat, lng := lng } := by
  unfold coordinateTryFromPair Coordinate.new
  split_ifs with hc <;> simp [hc]

/-- Witness for C8: the range check rejects latitude 100 and accepts
the in-range pair (10, 20). -/
theorem C8_tryfrom_validates_witness :
    coordinateTryFromPair (100, 20) = .error CoordinateError.InvalidValue ∧
    (coordinateTryFromPair (10, 20) = .ok { lat := 10, lng := 20 } ↔
      -90 ≤ (10 : ℚ) ∧ (10 : ℚ) ≤ 90 ∧ -180 ≤ (20 : ℚ) ∧ (20 : ℚ) ≤ 180) :=
  ⟨(C8_tryfrom_validates 100 20).2.1 (by norm_num), (C8_tryfrom_validates 10 20).1⟩

/-- C1 counterexample: for the valid 26-character string of `0`s, decoding
succeeds but re-encoding at `5 * 26 = 130` bits computes
`1usize << 65`, which overflows and panics under the debug profile
(release masks the shift and produces a wrong string), so the round trip
cannot yield the string. -/
theorem C1_shift_panic_counterexample :
    ∃ g, from_str (List.replicate 26 48) = .ok g ∧
      hash_with_precision g (5 * (List.replicate 26 48).length) = none ∧
      hash_with_max_length g (List.replicate 26 48).length = none := by
  obtain ⟨g, hg, _⟩ := from_str_inv (List.replicate 26 48) (by decide)
  have hl : (List.replicate 26 48).length = 26 := by decide
  rw [hl]
  refine ⟨g, hg, ?_, ?_⟩
  · exact hash_with_precision_shift_panic g (5 * 26) (by norm_num) (by norm_num)
  · rw [hash_with_max_length,
      hash_with_precision_shift_panic g (26 * 5) (by norm_num) (by norm_num)]
    rfl

/-- C1 amended: for every string over the 32-character alphabet of length
at most 18 — the range in which every float the codec touches is an
exactly representable dyadic rational and every shift amount stays below
64 — decoding with `from_str` succeeds and re-encoding the result with
`hash_with_precision (5 * n)` (equivalently `hash_with_max_length n`)
reproduces the string exactly. -/
theorem C1_geohash_roundtrip (cs : List Nat) (h : ∀ c ∈ cs, c ∈ alphabet)
    (hlen : cs.length ≤ 18) :
    ∃ g, from_str cs = .ok g ∧
      hash_with_precision g (5 * cs.length) = some (.ok cs) ∧
      hash_with_max_length g cs.length = some cs := by
  obtain ⟨g, hg, he⟩ := roundtrip_core cs h (by omega)
  refine ⟨g, hg, he, ?_⟩
  rw [hash_with_max_length, show cs.length * 5 = 5 * cs.length from by ring, he]
  rfl

/-- Witness for C1 at the canonical string `ezs42`
(codes [101, 122, 115, 52, 50]). -/
theorem C1_geohash_roundtrip_witness :
    ∃ g, from_str [101, 122, 115, 52, 50] = .ok g ∧
      hash_with_precision g (5 * [101, 122, 115, 52, 50].length) =
        some (.ok [101, 122, 115, 52, 50]) ∧
      hash_with_max_length g [101, 122, 115, 52, 50].length =
        some [101, 122, 115, 52, 50] :=
  C1_geohash_roundtrip [101, 122, 115, 52, 50] (by decide) (by decide)

theorem hash_with_precision_length (g : Geohash) (t : Nat) (h : t % 5 = 0)
    (hb : t ≤ 125) :
    ∃ s, hash_with_precision g t = some (.ok s) ∧ s.length = t / 5 := by
  rw [hash_with_precision_ok_eq g t h hb]
  refine ⟨_, rfl, ?_⟩
  rw [List.length_map]
  apply chunks5_length (t / 5)
  rw [interleave_length _ _ (by rw [natBits_length, natBits_length]; omega)
    (by rw [natBits_length, natBits_length]; omega), natBits_length, natBits_length]
  omega

/-- C9 counterexample: at `n = 26`, `hash_with_max_length` calls
`hash_with_precision(130)`, which computes `1usize << 65`; the shift
overflows and panics under the debug profile, so no 26-character hash is
returned. -/
theorem C9_shift_panic_counterexample :
    hash_with_max_length geohashDefault 26 = none := by
  rw [hash_with_max_length,
    hash_with_precision_shift_panic geohashDefault (26 * 5) (by norm_num) (by norm_num)]
  rfl

/-- C9 amended: for `1 ≤ n ≤ 25` (so both axis bit counts stay below 64
and the cell-count shifts are in range), `hash_with_max_length` never
hits its internal `unwrap` error branch (`n * 5` is always a multiple of
5 with a balanced axis split) and returns a hash of exactly `n`
characters, for every region. -/
theorem C9_hash_with_max_length_total (g : Geohash) (n : Nat) (h : 1 ≤ n)
    (h25 : n ≤ 25) :
    ∃ s, hash_with_max_length g n = some s ∧ s.length = n := by
  obtain ⟨s, hs, hlen⟩ := hash_with_precision_length g (n * 5) (by omega) (by omega)
  refine ⟨s, ?_, by omega⟩
  rw [hash_with_max_length, hs]
  rfl

/-- Witness for C9 on the default region at one character. -/
theorem C9_hash_with_max_length_total_witness :
    ∃ s, hash_with_max_length geohashDefault 1 = some s ∧ s.length = 1 :=
  C9_hash_with_max_length_total geohashDefault 1 (le_refl 1) (by omega)

/-- C10: every per-bit subdivision step of the decode loop preserves the
bounding-rectangle invariant, and decoding any alphabet string yields a
region satisfying it: ordered corners, latitudes within `[-90, 90]` and
longitudes within `[-180, 180]`. -/
theorem C10_from_str_wellFormed :
    (∀ (g : Geohash) (v fbl i : Nat), WellFormed g → WellFormed (applyBitV v fbl g i)) ∧
    (∀ cs : List Nat, (∀ c ∈ cs, c ∈ alphabet) →
      ∃ g, from_str cs = .ok g ∧ WellFormed g) := by
  constructor
  · intro g v fbl i h
    obtain ⟨w1, w2, w3, w4, w5, w6⟩ := h
    simp only [applyBitV]
    split_ifs <;>
      exact ⟨by dsimp only; linarith, by dsimp only; linarith, by dsimp only; linarith,
        by dsimp only; linarith, by dsimp only; linarith, by dsimp only; linarith⟩
  · intro cs h
    obtain ⟨g, hg, hinv⟩ := from_str_inv cs h
    exact ⟨g, hg, CellInv_wellFormed _ _ _ _ _ hinv⟩

/-- Witness for C10: the full-globe region is well-formed, one decode
step on it stays well-formed, and decoding `e` yields a well-formed
region. -/
theorem C10_from_str_wellFormed_witness :
    WellFormed (applyBitV 13 1 geohashDefault 4) ∧
    ∃ g, from_str [101] = .ok g ∧ WellFormed g :=
  ⟨C10_from_str_wellFormed.1 geohashDefault 13 1 4
      (by refine ⟨?_, ?_, ?_, ?_, ?_, ?_⟩ <;> norm_num [geohashDefault]),
    C10_from_str_wellFormed.2 [101] (by decide)⟩

/-- C6: decoding `ezs42` succeeds, the decoded region's center lies near
latitude 42.6 and longitude -5.6 (within 0.1 of each), and re-encoding at
25 bits reproduces exactly `ezs42`. -/
theorem C6_ezs42_scenario :
    ∃ g, from_str [101, 122, 115, 52, 50] = .ok g ∧
      |g.center.lat - 213 / 5| < 1 / 10 ∧ |g.center.lng + 28 / 5| < 1 / 10 ∧
      hash_with_precision g 25 = some (.ok [101, 122, 115, 52, 50]) := by
  obtain ⟨g, hg, hinv⟩ := from_str_inv [101, 122, 115, 52, 50] (by decide)
  obtain ⟨g2, hg2, he⟩ := roundtrip_core [101, 122, 115, 52, 50] (by decide) (by decide)
  rw [hg] at hg2
  injection hg2 with hgg
  subst hgg
  have he25 : hash_with_precision g 25 = some (.ok [101, 122, 115, 52, 50]) := by
    simpa using he
  have hsym : ([101, 122, 115, 52, 50].map symOf) = [13, 31, 24, 4, 2] := by decide
  rw [hsym] at hinv
  have hL : latCount [13, 31, 24, 4, 2] 1 = 12 := by decide
  have hM : lngCount [13, 31, 24, 4, 2] 1 = 13 := by decide
  have ha : aVal [13, 31, 24, 4, 2] 1 = 3017 := by decide
  have hb : bVal [13, 31, 24, 4, 2] 1 = 3968 := by decide
  rw [hL, hM, ha, hb] at hinv
  obtain ⟨e1, e2, e3, e4, _, _⟩ := hinv
  refine ⟨g, hg, ?_, ?_, he25⟩
  · have ec : g.center.lat = (g.bounding_top_left.lat + g.bounding_bottom_right.lat) / 2 := rfl
    rw [ec, e1, e2, abs_lt]
    norm_num
  · have ec : g.center.lng = (g.bounding_top_left.lng + g.bounding_bottom_right.lng) / 2 := rfl
    rw [ec, e3, e4, abs_lt]
    norm_num

theorem from_str_e :
    from_str [101] = .ok
      { bounding_top_left := { lat := 45, lng := -45 }, bounding_bottom_right := { lat := 0, lng := 0 } } := by
  obtain ⟨g, hg, hinv⟩ := from_str_inv [101] (by decide)
  have hsym : ([101].map symOf) = [13] := by decide
  rw [hsym] at hinv
  have hL : latCount [13] 1 = 2 := by decide
  have hM : lngCount [13] 1 = 3 := by decide
  have ha : aVal [13] 1 = 2 := by decide
  have hb : bVal [13] 1 = 3 := by decide
  rw [hL, hM, ha, hb] at hinv
  obtain ⟨e1, e2, e3, e4, _, _⟩ := hinv
  norm_num at e1 e2 e3 e4
  cases g with
  | mk tl br =>
    cases tl with
    | mk tlat tlng =>
      cases br with
      | mk blat blng =>
        simp only at e1 e2 e3 e4
        rw [hg, e1, e2, e3, e4]

theorem region_e_height :
    ({ bounding_top_left := { lat := 45, lng := -45 }, bounding_bottom_right := { lat := 0, lng := 0 } } : Geohash).height = -45 := by
  norm_num [Geohash.height]

theorem region_e_crosses_vertical :
    ({ bounding_top_left := { lat := 45, lng := -45 }, bounding_bottom_right := { lat := 0, lng := 0 } } : Geohash).crosses_vertical_chunks =
      true := by
  simp only [Geohash.crosses_vertical_chunks, Geohash.height, ratFloorUsize,
    decide_eq_true_eq]
  have e1 : (45 : ℚ) / (0 - 45) = -1 := by norm_num
  have e2 : (0 : ℚ) / (0 - 45) = 0 := by norm_num
  rw [e1, e2]
  norm_num

theorem region_e_ceil :
    ratCeilUsize (360 / ({ bounding_top_left := { lat := 45, lng := -45 }, bounding_bottom_right := { lat := 0, lng := 0 } } : Geohash).height) = 0 := by
  rw [region_e_height]
  have e1 : (360 : ℚ) / (-45) = ((-8 : ℤ) : ℚ) := by norm_num
  rw [ratCeilUsize, e1, Int.ceil_intCast]
  rfl

theorem region_e_floor :
    ratFloorUsize (360 / ({ bounding_top_left := { lat := 45, lng := -45 }, bounding_bottom_right := { lat := 0, lng := 0 } } : Geohash).height) = 0 := by
  rw [region_e_height]
  have e1 : (360 : ℚ) / (-45) = ((-8 : ℤ) : ℚ) := by norm_num
  rw [ratFloorUsize, e1, Int.floor_intCast]
  rfl

/-- C5 refutation by evaluation: the region decoded from the single
character `e` is well-formed (corners ordered, in range), yet both
`get_inner_hash` and `get_outer_hash` panic on it: the latitude axis
computes `ceil(360 / height)` with `height = -45 < 0`, the saturating
float-to-usize cast turns the negative result into `0`, and the crossing
adjustment then subtracts `1` from `0`, an underflow. No hash is
produced, so neither containment direction can hold. -/
theorem C5_containment_code_bug :
    from_str [101] = .ok
      { bounding_top_left := { lat := 45, lng := -45 }, bounding_bottom_right := { lat := 0, lng := 0 } } ∧
    WellFormed { bounding_top_left := { lat := 45, lng := -45 }, bounding_bottom_right := { lat := 0, lng := 0 } } ∧
    get_inner_hash { bounding_top_left := { lat := 45, lng := -45 }, bounding_bottom_right := { lat := 0, lng := 0 } } = none ∧
    get_outer_hash { bounding_top_left := { lat := 45, lng := -45 }, bounding_bottom_right := { lat := 0, lng := 0 } } = none := by
  refine ⟨from_str_e, ?_, ?_, ?_⟩
  · refine ⟨?_, ?_, ?_, ?_, ?_, ?_⟩ <;> norm_num
  · rw [get_inner_hash]
    rw [region_e_ceil, region_e_crosses_vertical]
    rfl
  · rw [get_outer_hash]
    rw [region_e_floor, region_e_crosses_vertical]
    rfl
